import Mathlib

/-!
Verification of the Study-Guide-Generator text-processing core.

The repository's core logic (`cleanContent`, the flashcard extractor inside
`formatContent`, `parseOutline`, `extractKeyPoints` in
`src/client/pages/Index.tsx`, and the upload filter / truncation / model
fallback loop in the Express handler) is regex-based JavaScript.  We embed it
shallowly: strings become `List Char`, and each regular expression is
translated into an explicit scanner that reproduces the JS engine's
leftmost-match / greedy / lazy semantics for that particular pattern.
-/

namespace StudyGuide

/-- JS `\s` (whitespace class) restricted to the ASCII whitespace characters
that can occur in the texts this app processes. -/
def wsChar (c : Char) : Bool :=
  c = ' ' || c = '\n' || c = '\t' || c = '\r' || c = '\x0b' || c = '\x0c'

/-- JS `\w` word character: `[A-Za-z0-9_]`. -/
def wordChar (c : Char) : Bool :=
  ('a' ≤ c && c ≤ 'z') || ('A' ≤ c && c ≤ 'Z') || ('0' ≤ c && c ≤ '9') || c = '_'

/-- JS `\d`. -/
def digitChar (c : Char) : Bool := '0' ≤ c && c ≤ '9'

/-- ASCII lowercasing (as a codepoint), for case-insensitive (`/i`) matching. -/
def lowerN (c : Char) : Nat :=
  if 'A' ≤ c && c ≤ 'Z' then c.toNat + 32 else c.toNat

/-- Case-insensitive character equality (`/i` flag). -/
def ciEq (a b : Char) : Bool := lowerN a = lowerN b

/-- Case-insensitive "starts with" for a literal pattern. -/
def isPrefCI : List Char → List Char → Bool
  | [], _ => true
  | _ :: _, [] => false
  | p :: ps, c :: cs => ciEq p c && isPrefCI ps cs

/-- Case-sensitive "starts with" for a literal pattern. -/
def isPrefCS : List Char → List Char → Bool
  | [], _ => true
  | _ :: _, [] => false
  | p :: ps, c :: cs => (p = c) && isPrefCS ps cs

/-- Length of the maximal leading whitespace run (greedy `\s*`). -/
def wsRunLen : List Char → Nat
  | [] => 0
  | c :: rest => if wsChar c then wsRunLen rest + 1 else 0

/-- Length of the maximal leading digit run (greedy `\d*` / `\d+`). -/
def digitRunLen : List Char → Nat
  | [] => 0
  | c :: rest => if digitChar c then digitRunLen rest + 1 else 0

/-- JS `String.prototype.trimStart`-like left trim (drop leading whitespace). -/
def trimLeft (s : List Char) : List Char := s.dropWhile wsChar

/-- Right trim: remove the trailing whitespace run. -/
def trimRight (s : List Char) : List Char :=
  s.foldr (fun c acc => if acc = [] && wsChar c then [] else c :: acc) []

/-- JS `String.prototype.trim`. -/
def trimStr (s : List Char) : List Char := trimRight (trimLeft s)

/-- Number of characters up to and including the first `'\n'` (or to the end
if there is none): the extent of `[^\n]*\n?` starting here. -/
def restLineLen : List Char → Nat
  | [] => 0
  | c :: rest => if c = '\n' then 1 else restLineLen rest + 1

/-- A word boundary `\b` sits between the last character of a word we just
matched and the current position: it holds iff the next character is absent or
is not a word character. -/
def boundaryOK : List Char → Bool
  | [] => true
  | c :: _ => !wordChar c

/-- Does the list contain three consecutive newlines (a `\n{3,}` match)? -/
def hasNNN : List Char → Bool
  | c1 :: c2 :: c3 :: rest =>
      (c1 = '\n' && c2 = '\n' && c3 = '\n') || hasNNN (c2 :: c3 :: rest)
  | _ => false

/-- `content.replace(/\n{3,}/g, '\n\n')`: every maximal run of 3 or more
newlines is collapsed to exactly two.  `k` counts the `'\n'` characters
immediately preceding the current position that were kept. -/
def collapseGo : Nat → List Char → List Char
  | _, [] => []
  | k, c :: rest =>
      if c = '\n' then
        if k ≥ 2 then collapseGo k rest else c :: collapseGo (k + 1) rest
      else c :: collapseGo 0 rest

/-- Collapse `\n{3,}` runs down to `\n\n` (the normalizer's newline step). -/
def collapseNL (s : List Char) : List Char := collapseGo 0 s

/-! ### The preamble patterns of `cleanContent`

Each pattern has the shape `/^\s*PHRASE\b[^\n]*\n?/i` and is applied once with
a non-global `replace`, i.e. it strips a matching first line (plus its leading
whitespace) or does nothing. -/

/-- Match length of `/^\s*⟨phrase⟩\b[^\n]*\n?/i` at the start of `s`
(`none` if the pattern does not match). -/
def preMatchP (phrase : String) (s : List Char) : Option Nat :=
  let w := wsRunLen s
  let r := s.drop w
  let p := phrase.data
  if isPrefCI p r && boundaryOK (r.drop p.length) then
    some (w + p.length + restLineLen (r.drop p.length))
  else none

/-- `/^\s*Here (?:is|are)\b[^\n]*\n?/i` (ordered alternation `is` before
`are`, with backtracking into the alternation when `\b` fails). -/
def preMatchHere (s : List Char) : Option Nat :=
  (preMatchP "Here is" s).orElse (fun _ => preMatchP "Here are" s)

/-- `/^\s*Note:\s*This\b[^\n]*\n?/i` (the inner `\s*` is greedy; since `This`
starts with a non-whitespace character it consumes exactly the run). -/
def preMatchNote (s : List Char) : Option Nat :=
  let w := wsRunLen s
  let r := s.drop w
  if isPrefCI "note:".data r then
    let w2 := wsRunLen (r.drop 5)
    let r2 := r.drop (5 + w2)
    if isPrefCI "this".data r2 && boundaryOK (r2.drop 4) then
      some (w + 5 + w2 + 4 + restLineLen (r2.drop 4))
    else none
  else none

/-- The eight preamble matchers, in the order of `preamblePatterns`. -/
def preambleMatchers : List (List Char → Option Nat) :=
  [ preMatchHere
  , preMatchP "I'll"
  , preMatchP "I can"
  , preMatchP "Let me"
  , preMatchP "Based on"
  , preMatchP "Given"
  , preMatchP "It appears"
  , preMatchNote ]

/-- One `cleaned = cleaned.replace(rx, '')` step for an anchored pattern. -/
def stripPre (m : List Char → Option Nat) (s : List Char) : List Char :=
  match m s with
  | some n => s.drop n
  | none => s

/-- `preamblePatterns.forEach((rx) => { cleaned = cleaned.replace(rx, ''); })` -/
def stripPreambles (s : List Char) : List Char :=
  preambleMatchers.foldl (fun acc m => stripPre m acc) s

/-- Does any preamble pattern match `s`? -/
def preambleMatches (s : List Char) : Bool :=
  preambleMatchers.any (fun m => (m s).isSome)

/-! ### The marker-cut step of `cleanContent` -/

/-- The five study-guide types. -/
inductive StudyGuideType where
  | summary | points | flashcards | quiz | outline
deriving DecidableEq, Repr

/-- Is the head of `l` a whitespace character (`\s` right after a bullet)? -/
def headWs : List Char → Bool
  | c :: _ => wsChar c
  | _ => false

/-- Does a maximal digit run followed by a literal `'.'` start here?  (The
only way `\d+\.` can match at this position: `\d+` is greedy and giving back
digits never helps, since the character after a shorter run is a digit.) -/
def digitsDot (l : List Char) : Bool :=
  let d := digitRunLen l
  d ≥ 1 && (match l.drop d with | '.' :: _ => true | _ => false)

/-- `cleaned.search(/\b(Question:|Q:|\d+\.|\*\s|\-\s)/i)` : index of the first
position where one of the alternatives matches with its preceding `\b`.
`prev` is the character before the current position (`none` at the start). -/
def flashMarkerFrom (prev : Option Char) : List Char → Option Nat
  | [] => none
  | c :: rest =>
      let prevNonWord := match prev with | none => true | some p => !wordChar p
      let prevWord := match prev with | none => false | some p => wordChar p
      if (prevNonWord && (isPrefCI "question:".data (c :: rest) ||
            isPrefCI "q:".data (c :: rest))) ||
         (prevNonWord && digitChar c && digitsDot (c :: rest)) ||
         (prevWord && (c = '*' || c = '-') && headWs rest) then
        some 0
      else (flashMarkerFrom (some c) rest).map (· + 1)

/-- Does a structural marker `(#|\*\s|\-\s|\d+\.|I\.|II\.)` (case-sensitive)
start here?  Used at line starts only (`/m` flag). -/
def structHere (l : List Char) : Bool :=
  match l with
  | [] => false
  | c :: rest =>
      c = '#' || ((c = '*' || c = '-') && headWs rest) ||
      (digitChar c && digitsDot (c :: rest)) ||
      isPrefCS "I.".data l || isPrefCS "II.".data l

/-- `cleaned.search(/^(#|\*\s|\-\s|\d+\.|I\.|II\.)/m)` : index of the first
line start carrying a structural marker. -/
def structMarkerFrom (atLineStart : Bool) : List Char → Option Nat
  | [] => none
  | c :: rest =>
      if atLineStart && structHere (c :: rest) then some 0
      else (structMarkerFrom (c = '\n') rest).map (· + 1)

/-- The marker-search index used by `cleanContent` for the given type. -/
def markerIdx (s : List Char) (t : StudyGuideType) : Option Nat :=
  if t = StudyGuideType.flashcards then flashMarkerFrom none s
  else structMarkerFrom true s

/-- `if (idx > 0) cleaned = cleaned.slice(idx);` (a failed search gives
`-1`, which also leaves the string unchanged). -/
def markerCut (s : List Char) (t : StudyGuideType) : List Char :=
  match markerIdx s t with
  | some i => if 0 < i then s.drop i else s
  | none => s

/-- Is the marker step inert on `s` (no match, or a match at position 0)? -/
def markerInert (s : List Char) (t : StudyGuideType) : Bool :=
  match markerIdx s t with
  | some i => i = 0
  | none => true

/-! ### The trailing-disclaimer strip of `cleanContent` -/

/-- Does one of the four closing-remark phrases start here (`/i`)? -/
def trailPhraseAt (l : List Char) : Bool :=
  isPrefCI "i hope this helps".data l ||
  isPrefCI "let me know if you need".data l ||
  isPrefCI "would you like me".data l ||
  isPrefCI "feel free to ask".data l

/-- Index of the first occurrence of a closing-remark phrase. -/
def findTrailP : List Char → Option Nat
  | [] => none
  | c :: rest =>
      if trailPhraseAt (c :: rest) then some 0
      else (findTrailP rest).map (· + 1)

/-- `cleaned.replace(/(?:\n|\s)*(?:…)[\s\S]*$/i, '')` : with `[\s\S]*$`
swallowing the rest, the leftmost match starts at the first phrase occurrence
extended left across the whitespace run immediately before it.  Removing that
match keeps `s.take p` stripped of its trailing whitespace. -/
def stripTrailing (s : List Char) : List Char :=
  match findTrailP s with
  | some p => trimRight (s.take p)
  | none => s

/-! ### `cleanContent` itself (Index.tsx lines 44-81) -/

/-- The response normalizer `cleanContent(content, type)`. -/
def cleanContent (content : List Char) (type : StudyGuideType) : List Char :=
  if content = [] then []
  else
    let c1 := stripPreambles content
    let c2 := markerCut c1 type
    let c3 := trimStr (stripTrailing c2)
    trimStr (collapseNL c3)

/-! ### The flashcard extractor (Index.tsx lines 522-569)

Pattern family 1: `/(Question:)([\s\S]*?)(?:\n|\s)+?(Answer:)([\s\S]*?)(?=\n\s*\n|\n\s*Question:|\n\s*Q:|$)/gi`
Pattern family 2: the same with `Q:` / `A:`.
Pattern family 3: `/(?:^|\n)\s*\d+[\).]?\s+([\s\S]*?)(?:\s+)(Answer:|A:)\s*([\s\S]*?)(?=\n\s*\n|\n\s*\d+[\).]?|$)/gi`

The `consumed` array in the source is filled in but never read (dead code,
acknowledged by the repo's own design notes), so it is not modeled. -/

/-- A derived flashcard record. -/
structure Flashcard where
  question : List Char
  answer : List Char
deriving DecidableEq, Repr

/-- First index (case-insensitive) at which the literal `pat` occurs. -/
def findLabelCI (pat : List Char) : List Char → Option Nat
  | [] => none
  | c :: rest =>
      if isPrefCI pat (c :: rest) then some 0
      else (findLabelCI pat rest).map (· + 1)

/-- If one of `pats` occurs here (case-insensitive, tried in order), its
length. -/
def labelAt (pats : List (List Char)) (l : List Char) : Option Nat :=
  match pats with
  | [] => none
  | p :: ps => if isPrefCI p l then some p.length else labelAt ps l

/-- Smallest `k ≥ 1` such that the first `k` characters are whitespace and one
of `pats` starts right after (the separator `(?:\n|\s)+?` / `(?:\s+)` before a
label: since every label starts with a non-whitespace character, the only
viable `k` is the full whitespace run, so lazy and greedy agree). -/
def findWsSep (pats : List (List Char)) : List Char → Option Nat
  | [] => none
  | c :: rest =>
      if wsChar c then
        if (labelAt pats rest).isSome then some 1
        else (findWsSep pats rest).map (· + 1)
      else none

/-- Lazy `[\s\S]*?` before `(?:ws)+ label`: smallest `g` such that a
whitespace run (≥ 1) followed by one of `pats` starts at offset `g`.  Returns
`(g, k, labelLen)`. -/
def findGSep (pats : List (List Char)) : List Char → Option (Nat × Nat × Nat)
  | [] => none
  | c :: rest =>
      match findWsSep pats (c :: rest) with
      | some k =>
          match labelAt pats ((c :: rest).drop k) with
          | some n => some (0, k, n)
          | none => none
      | none => (findGSep pats rest).map (fun p => (p.1 + 1, p.2.1, p.2.2))

/-- After the `\n` of the lookahead `(?=\n\s*\n|\n\s*Question:|\n\s*Q:|…)`:
scan across `\s*` for a second `\n` or a label. -/
def lookAfterNL (pats : List (List Char)) : List Char → Bool
  | [] => false
  | c :: rest =>
      if c = '\n' then true
      else if (labelAt pats (c :: rest)).isSome then true
      else if wsChar c then lookAfterNL pats rest
      else false

/-- The zero-width lookahead `(?=\n\s*\n|\n\s*⟨labels⟩|$)` at this position. -/
def lookQA (pats : List (List Char)) (l : List Char) : Bool :=
  match l with
  | [] => true
  | c :: rest => c = '\n' && lookAfterNL pats rest

/-- Lazy `[\s\S]*?` bounded by a lookahead: length of the shortest prefix
after which `look` holds (the `$` branch makes it hold at the very end). -/
def findLazyEnd (look : List Char → Bool) : List Char → Nat
  | [] => 0
  | c :: rest => if look (c :: rest) then 0 else findLazyEnd look rest + 1

/-- The boundary lookaheads of families 1 and 2 (same label set). -/
def lookQA12 (l : List Char) : Bool := lookQA ["question:".data, "q:".data] l

/-- Repeated `rx.exec` for families 1/2: find the question label, the lazy
question text, the whitespace separator, the answer label, then the lazy
answer text bounded by the lookahead; continue after the match (`lastIndex`).
A failed separator search moves the scan past the failed label occurrence.
Per `qRaw = m[2] || m[1]` / `aRaw = m[4] || m[3]`, an empty text group falls
back to the matched label slice (case as in the input). -/
def qaLoop (qLab aLab : List Char) : Nat → List Char → List (List Char × List Char)
  | 0, _ => []
  | fuel + 1, s =>
      match findLabelCI qLab s with
      | none => []
      | some t =>
          let qSlice := (s.drop t).take qLab.length
          let r := s.drop (t + qLab.length)
          match findGSep [aLab] r with
          | some (g, k, n) =>
              let q := r.take g
              let aSlice := (r.drop (g + k)).take n
              let afterA := r.drop (g + k + n)
              let e := findLazyEnd lookQA12 afterA
              let a := afterA.take e
              (if q.isEmpty then qSlice else q,
               if a.isEmpty then aSlice else a) ::
                qaLoop qLab aLab fuel (afterA.drop e)
          | none => qaLoop qLab aLab fuel (s.drop (t + 1))

/-- After the `\n` of family 3's lookahead `(?=\n\s*\n|\n\s*\d+[\).]?|$)`. -/
def lookAfterNL3 : List Char → Bool
  | [] => false
  | c :: rest =>
      if c = '\n' then true
      else if digitChar c then true
      else if wsChar c then lookAfterNL3 rest
      else false

/-- Family 3's lookahead. -/
def lookNum (l : List Char) : Bool :=
  match l with
  | [] => true
  | c :: rest => c = '\n' && lookAfterNL3 rest

/-- The greedy `(?:\s+)` after the item number, backtracking from the longest
whitespace prefix down to length 1: a shorter take can free the run's last
whitespace character to serve as the separator before the answer label. -/
def tryNumSep (s3 : List Char) : Nat → Option (Nat × Nat × Nat × Nat)
  | 0 => none
  | w2 + 1 =>
      match findGSep ["answer:".data, "a:".data] (s3.drop (w2 + 1)) with
      | some (g, k, n) => some (w2 + 1, g, k, n)
      | none => tryNumSep s3 w2

/-- Family 3's body right after its `(?:^|\n)` anchor:
`\s*\d+[\).]?\s+([\s\S]*?)(?:\s+)(Answer:|A:)\s*([\s\S]*?)(?=…)`.
Returns the matched label slice (`m[2]`), the answer text (`m[3]`) and the
remainder after the match. -/
def tryNum (s : List Char) : Option (List Char × List Char × List Char) :=
  let s1 := s.drop (wsRunLen s)
  let d := digitRunLen s1
  if d = 0 then none
  else
    let s2 := s1.drop d
    let s3 := match s2 with | ')' :: r => r | '.' :: r => r | _ => s2
    match tryNumSep s3 (wsRunLen s3) with
    | some (w2, g, k, n) =>
        let r := s3.drop w2
        let lab := (r.drop (g + k)).take n
        let afterL := r.drop (g + k + n)
        let a0 := afterL.drop (wsRunLen afterL)
        let e := findLazyEnd lookNum a0
        some (lab, a0.take e, a0.drop e)
    | none => none

/-- Scan for `\n` anchors of family 3 and collect its matches. -/
def p3Scan : Nat → List Char → List (List Char × List Char)
  | 0, _ => []
  | fuel + 1, s =>
      match findLabelCI ['\n'] s with
      | none => []
      | some i =>
          match tryNum (s.drop (i + 1)) with
          | some (lab, a, rem) => (lab, a) :: p3Scan fuel rem
          | none => p3Scan fuel (s.drop (i + 1))

/-- All family-3 matches: the `^` anchor applies only on the first `exec`
(at absolute position 0); afterwards only `\n` anchors remain. -/
def pattern3Matches (s : List Char) : List (List Char × List Char) :=
  match tryNum s with
  | some (lab, a, rem) => (lab, a) :: p3Scan (s.length + 1) rem
  | none => p3Scan (s.length + 1) s

/-! ### Per-candidate cleanup and the acceptance guard -/

/-- `qRaw.replace(/\b(Answer:|A:)\b[\s\S]*$/i, '')`: cut at the first
position with a word boundary before `Answer:`/`A:` (case-insensitive) and a
word boundary after the colon (i.e. a word character follows it). -/
def stripAnswerTailGo (prevWord : Bool) : List Char → List Char
  | [] => []
  | c :: rest =>
      let headWord : List Char → Bool := fun l =>
        match l with | x :: _ => wordChar x | [] => false
      if !prevWord &&
         ((isPrefCI "answer:".data (c :: rest) && headWord ((c :: rest).drop 7)) ||
          (isPrefCI "a:".data (c :: rest) && headWord ((c :: rest).drop 2))) then
        []
      else c :: stripAnswerTailGo (wordChar c) rest

/-- The `Answer:` tail strip (word boundary holds at position 0 because the
labels begin with a word character). -/
def stripAnswerTail (l : List Char) : List Char := stripAnswerTailGo false l

/-- `…​.replace(/^\d+[\).]?\s*/, '')`. -/
def stripLeadingNum (l : List Char) : List Char :=
  let d := digitRunLen l
  if d = 0 then l
  else
    let r := l.drop d
    let r2 := match r with | ')' :: x => x | '.' :: x => x | _ => r
    r2.drop (wsRunLen r2)

/-- The question cleanup chain of the family loop. -/
def cleanQuestion (qRaw : List Char) : List Char :=
  trimStr (stripLeadingNum (stripAnswerTail
    (qRaw.dropWhile (fun c => wsChar c || c = '-' || c = '*'))))

/-- `aRaw.replace(/^\s*-\s*/, '').trim()`. -/
def cleanAnswer (aRaw : List Char) : List Char :=
  let w := wsRunLen aRaw
  let r := aRaw.drop w
  trimStr (match r with
    | '-' :: x => x.drop (wsRunLen x)
    | _ => aRaw)

/-- The push guard
`question && answer && question.length > 2 && answer.length > 1`. -/
def acceptCard (fc : Flashcard) : Bool :=
  !fc.question.isEmpty && !fc.answer.isEmpty &&
  decide (2 < fc.question.length) && decide (1 < fc.answer.length)

/-- The raw `(qRaw, aRaw)` candidates of the three families, in discovery
order, already run through the per-candidate cleanup. -/
def familyCandidates (s : List Char) : List Flashcard :=
  ((qaLoop "question:".data "answer:".data (s.length + 1) s) ++
   (qaLoop "q:".data "a:".data (s.length + 1) s) ++
   pattern3Matches s).map
    (fun p => ⟨cleanQuestion p.1, cleanAnswer p.2⟩)

/-- The flashcards pushed by the three pattern families. -/
def familyCards (s : List Char) : List Flashcard :=
  (familyCandidates s).filter acceptCard

/-! ### The blank-line fallback -/

/-- Greedy match of the block separator `\n\s*\n` starting here: the last
`'\n'` inside the whitespace run after the opening `'\n'`; returns the match
length. -/
def blockSepAt (l : List Char) : Option Nat :=
  match l with
  | '\n' :: rest =>
      let rec lastNL : List Char → Option Nat := fun r =>
        match r with
        | c :: cs =>
            if wsChar c then
              match lastNL cs with
              | some j => some (j + 1)
              | none => if c = '\n' then some 0 else none
            else none
        | [] => none
      (lastNL rest).map (fun k => k + 2)
  | _ => none

/-- `cleanedContent.split(/\n\s*\n/)`. -/
def splitBlocks : Nat → List Char → List (List Char)
  | 0, s => [s]
  | fuel + 1, s =>
      let rec firstSep : List Char → Option (Nat × Nat) := fun r =>
        match r with
        | [] => none
        | c :: cs =>
            match blockSepAt (c :: cs) with
            | some n => some (0, n)
            | none => (firstSep cs).map (fun p => (p.1 + 1, p.2))
      match firstSep s with
      | some (i, n) => s.take i :: splitBlocks fuel (s.drop (i + n))
      | none => [s]

/-- Lazy `([\s\S]*?)\s*⟨labels⟩` with an optional separator: smallest `g`
such that one of `pats` starts right after the whitespace run beginning at
offset `g` (the greedy `\s*` consumes exactly that run). -/
def findGSep0 (pats : List (List Char)) : List Char → Option (Nat × Nat × Nat)
  | [] => (labelAt pats []).map (fun n => (0, 0, n))
  | c :: rest =>
      let k := wsRunLen (c :: rest)
      match labelAt pats ((c :: rest).drop k) with
      | some n => some (0, k, n)
      | none => (findGSep0 pats rest).map (fun p => (p.1 + 1, p.2.1, p.2.2))

/-- The fallback pattern
`/(?:^|\n)\s*(?:\d+[\).]?\s*)?(?:Question:|Q:)\s*([\s\S]*?)\s*(?:Answer:|A:)\s*([\s\S]*)/i`
attempted right after its anchor; returns `(m[1], m[2])`. -/
def inlineTryAt (sec : List Char) : Option (List Char × List Char) :=
  let s1 := sec.drop (wsRunLen sec)
  let d := digitRunLen s1
  let s2 :=
    if d = 0 then s1
    else
      let r := s1.drop d
      let r2 := match r with | ')' :: x => x | '.' :: x => x | _ => r
      r2.drop (wsRunLen r2)
  match labelAt ["question:".data, "q:".data] s2 with
  | none => none
  | some ll =>
      let r := s2.drop ll
      let r2 := r.drop (wsRunLen r)
      match findGSep0 ["answer:".data, "a:".data] r2 with
      | none => none
      | some (g, k, n) =>
          let afterL := r2.drop (g + k + n)
          some (r2.take g, afterL.drop (wsRunLen afterL))

/-- `section.match(...)`: first match — try the `^` anchor, then each `\n`. -/
def inlineQA : Nat → Bool → List Char → Option (List Char × List Char)
  | 0, _, _ => none
  | fuel + 1, atStart, s =>
      if atStart then
        match inlineTryAt s with
        | some qa => some qa
        | none => inlineQA fuel false s
      else
        match findLabelCI ['\n'] s with
        | none => none
        | some i =>
            match inlineTryAt (s.drop (i + 1)) with
            | some qa => some qa
            | none => inlineQA fuel false (s.drop (i + 1))

/-- The fallback test of one blank-line block: the question cleanup here is
only the `Answer:` tail strip plus `trim`; push when `q && a` (non-emptiness
only — no length thresholds here). -/
def fallbackOfBlock (sec : List Char) : Option Flashcard :=
  match inlineQA (sec.length + 1) true sec with
  | some (q0, a0) =>
      let q := trimStr (stripAnswerTail q0)
      let a := trimStr a0
      if !q.isEmpty && !a.isEmpty then some ⟨q, a⟩ else none
  | none => none

/-- The fallback cards: split on blank-line separators, test each block. -/
def fallbackCards (s : List Char) : List Flashcard :=
  (splitBlocks (s.length + 1) s).filterMap fallbackOfBlock

/-- The flashcard extractor of `formatContent` on cleaned text. -/
def extractFlashcards (s : List Char) : List Flashcard :=
  if familyCards s = [] then fallbackCards s else familyCards s

/-- The full flashcard pipeline: cleanup, then extraction. -/
def flashcardsOf (content : List Char) : List Flashcard :=
  extractFlashcards (cleanContent content StudyGuideType.flashcards)

/-! ### The outline parser (Index.tsx lines 286-329) -/

/-- An outline subtopic (`OutlinePoint` in the source). -/
structure OutlinePoint where
  title : List Char
  points : List (List Char)
deriving DecidableEq, Repr

/-- An outline section. -/
structure OutlineSection where
  title : List Char
  subtopics : List OutlinePoint
deriving DecidableEq, Repr

/-- `text.split(/\r?\n/)`: split on `'\n'`, also consuming a `'\r'`
immediately before it.  `acc` holds the current line reversed. -/
def splitRNGo (acc : List Char) : List Char → List (List Char)
  | [] => [acc.reverse]
  | c :: rest =>
      if c = '\n' then
        (match acc with
         | '\r' :: a => a.reverse
         | _ => acc.reverse) :: splitRNGo [] rest
      else splitRNGo (c :: acc) rest

/-- `text.split(/\r?\n/)`. -/
def splitRN (s : List Char) : List (List Char) := splitRNGo [] s

/-- `(.*)` to the end of the current line (JS `.` excludes line
terminators; split lines can still contain a stray `'\r'`). -/
def restOfLine (l : List Char) : List Char :=
  l.takeWhile (fun c => c ≠ '\n' && c ≠ '\r')

/-- Try a case-insensitive literal alternative, then continue with `next`;
accumulates the consumed length.  Alternatives are tried in list order
(regex alternation priority, longest-first inside each quantified part). -/
def tryParts (alts : List String) (next : List Char → Option Nat)
    (s : List Char) : Option Nat :=
  match alts with
  | [] => none
  | a :: rest =>
      if isPrefCI a.data s then
        match next (s.drop a.data.length) with
        | some n => some (n + a.data.length)
        | none => tryParts rest next s
      else tryParts rest next s

/-- `M{0,4}` greedy: longest first. -/
def romanM : List String := ["mmmm", "mmm", "mm", "m", ""]

/-- `(CM|CD|D?C{0,3})` in priority order. -/
def romanC : List String := ["cm", "cd", "dccc", "dcc", "dc", "d", "ccc", "cc", "c", ""]

/-- `(XC|XL|L?X{0,3})` in priority order. -/
def romanX : List String := ["xc", "xl", "lxxx", "lxx", "lx", "l", "xxx", "xx", "x", ""]

/-- `(IX|IV|V?I{0,3})` in priority order. -/
def romanI : List String := ["ix", "iv", "viii", "vii", "vi", "v", "iii", "ii", "i", ""]

/-- The lookahead `(?=[MDCLXVI])` (case-insensitive). -/
def romanHead (l : List Char) : Bool :=
  match l with
  | c :: _ => "mdclxvi".data.any (fun r => ciEq r c)
  | [] => false

/-- Match length of
`/^(?:(?=[MDCLXVI])M{0,4}(CM|CD|D?C{0,3})(XC|XL|L?X{0,3})(IX|IV|V?I{0,3}))\./i`
including the dot, with full backtracking across the four parts. -/
def romanDotMatch (s : List Char) : Option Nat :=
  if romanHead s then
    tryParts romanM (tryParts romanC (tryParts romanX (tryParts romanI
      (fun l => match l with | '.' :: _ => some 1 | _ => none)))) s
  else none

/-- `/^#\s+/.test(line)`. -/
def headingTest (l : List Char) : Bool :=
  match l with
  | c :: rest => c = '#' && headWs rest
  | [] => false

/-- `line.replace(romanRe, '').replace(/^#\s+/, '').trim()`. -/
def outlineTitle (line : List Char) : List Char :=
  let t1 := match romanDotMatch line with
    | some n => line.drop n
    | none => line
  let t2 := match t1 with
    | '#' :: rest => if headWs rest then rest.drop (wsRunLen rest) else t1
    | _ => t1
  trimStr t2

/-- `/^([A-Z])\.?\s+(.*)/.exec(line)`: returns `m[2]` (the optional dot, if
present, must be taken — skipping it leaves `\s+` facing the dot). -/
def letterExec (l : List Char) : Option (List Char) :=
  match l with
  | c :: rest =>
      if 'A' ≤ c && c ≤ 'Z' then
        let r2 := match rest with | '.' :: r => r | _ => rest
        let w := wsRunLen r2
        if w ≥ 1 then some (restOfLine (r2.drop w)) else none
      else none
  | [] => none

/-- `/^(\d+)\.?\s+(.*)/.exec(line) || /^[-*]\s+(.*)/.exec(line)` followed by
`numbered[2] ? numbered[2].trim() : numbered[1].trim()` (the bullet variant
has no group 2, and a falsy — empty — group 2 falls back to group 1). -/
def numberedPoint (l : List Char) : Option (List Char) :=
  let d := digitRunLen l
  if d ≥ 1 then
    let r1 := l.drop d
    let r2 := match r1 with | '.' :: r => r | _ => r1
    let w := wsRunLen r2
    if w ≥ 1 then
      let g2 := restOfLine (r2.drop w)
      some (if g2 ≠ [] then trimStr g2 else trimStr (l.take d))
    else none
  else
    match l with
    | c :: rest =>
        if c = '-' || c = '*' then
          let w := wsRunLen rest
          if w ≥ 1 then some (trimStr (restOfLine (rest.drop w))) else none
        else none
    | [] => none

/-- The parser state: finished sections, the open section, and whether a
subtopic is open.  In the source `currentSub` aliases the last element of
`current.subtopics`; it is non-null only while `current` is. -/
structure OutlineState where
  sections : List OutlineSection
  current : Option OutlineSection
  hasSub : Bool
deriving DecidableEq, Repr

/-- Push a point onto the last subtopic (the aliased `currentSub`). -/
def pushPointLast : List OutlinePoint → List Char → List OutlinePoint
  | [], _ => []
  | [s], p => [{ title := s.title, points := s.points ++ [p] }]
  | s :: rest, p => s :: pushPointLast rest p

/-- One loop iteration of `parseOutline` on a (trimmed, non-empty) line.
The `lineNoBullet` local of the source is computed but never used. -/
def outlineStep (st : OutlineState) (line : List Char) : OutlineState :=
  if (romanDotMatch line).isSome || headingTest line then
    { sections := st.sections ++ st.current.toList
      current := some ⟨outlineTitle line, []⟩
      hasSub := false }
  else
    match letterExec line with
    | some rest =>
        let cur := st.current.getD ⟨rest, []⟩
        { sections := st.sections
          current := some { title := cur.title
                            subtopics := cur.subtopics ++ [⟨trimStr rest, []⟩] }
          hasSub := true }
    | none =>
        match numberedPoint line with
        | some pt =>
            let cur := st.current.getD ⟨"Outline".data, []⟩
            if st.current.isSome && st.hasSub then
              { sections := st.sections
                current := some { title := cur.title
                                  subtopics := pushPointLast cur.subtopics pt }
                hasSub := true }
            else
              { sections := st.sections
                current := some { title := cur.title
                                  subtopics := cur.subtopics ++ [⟨"Details".data, [pt]⟩] }
                hasSub := true }
        | none => st

/-- `parseOutline(text)`. -/
def parseOutline (text : List Char) : List OutlineSection :=
  let lines := ((splitRN text).map trimStr).filter (fun l => l ≠ [])
  let fin := lines.foldl outlineStep ⟨[], none, false⟩
  fin.sections ++ fin.current.toList

/-! ### The key-points extractor (Index.tsx lines 331-348) -/

/-- The extracted key points. -/
structure KeyPoints where
  intro : List Char
  bullets : List (List Char)
deriving DecidableEq, Repr

/-- Match length of `/^(\s*[-*]|\s*\d+\.)\s+/` (`none` when the line is not a
marker line). -/
def kpMarkerLen (l : List Char) : Option Nat :=
  let w := wsRunLen l
  match l.drop w with
  | [] => none
  | c :: rest =>
      if c = '-' || c = '*' then
        let w2 := wsRunLen rest
        if w2 ≥ 1 then some (w + 1 + w2) else none
      else
        let d := digitRunLen (c :: rest)
        if d ≥ 1 && (match (c :: rest).drop d with | '.' :: _ => true | _ => false) then
          let w2 := wsRunLen ((c :: rest).drop (d + 1))
          if w2 ≥ 1 then some (w + d + 1 + w2) else none
        else none

/-- `extractKeyPoints(text)`. -/
def extractKeyPoints (text : List Char) : KeyPoints :=
  let lines := splitRN text
  let idx := lines.findIdx? (fun l => (kpMarkerLen l).isSome)
  let intro := match idx with
    | some i => if 0 < i then trimStr (List.intercalate ['\n'] (lines.take i)) else []
    | none => []
  let bulletLines := match idx with
    | some i => lines.drop i
    | none => lines
  let step : List (List Char) × List (List Char) → List Char →
      List (List Char) × List (List Char) := fun acc l =>
    match kpMarkerLen l with
    | some n =>
        ((if acc.2 ≠ [] then acc.1 ++ [trimStr (List.intercalate [' '] acc.2)]
          else acc.1),
         [trimStr (l.drop n)])
    | none =>
        if trimStr l ≠ [] then (acc.1, acc.2 ++ [trimStr l]) else acc
  let fin := bulletLines.foldl step ([], [])
  ⟨intro, if fin.2 ≠ [] then fin.1 ++ [trimStr (List.intercalate [' '] fin.2)]
          else fin.1⟩

/-! ### Server-side: upload filter, truncation, model fallback
(Express handler, `upload fileFilter` / `handleStudyGuideGeneration`) -/

/-- The MIME-type allow-list. -/
def allowedTypes : List String :=
  ["application/pdf", "image/png", "text/markdown", "text/plain"]

/-- The extension allow-list. -/
def allowedExtensions : List (List Char) :=
  [".pdf".data, ".png".data, ".md".data, ".txt".data]

/-- Index of the last `'.'` in the name, if any (`lastIndexOf('.')`). -/
def lastDotIdx (l : List Char) : Option Nat :=
  match l with
  | [] => none
  | c :: rest =>
      match lastDotIdx rest with
      | some i => some (i + 1)
      | none => if c = '.' then some 0 else none

/-- ASCII `toLowerCase` on a name. -/
def lowerStr (l : List Char) : List Char :=
  l.map (fun c => if 'A' ≤ c && c ≤ 'Z' then Char.ofNat (c.toNat + 32) else c)

/-- `file.originalname.toLowerCase().substring(file.originalname.lastIndexOf('.'))`.
With no dot, `lastIndexOf` gives `-1` and `substring(-1)` clamps to `0`,
yielding the whole lowercased name. -/
def fileExtensionOf (name : List Char) : List Char :=
  match lastDotIdx name with
  | some i => (lowerStr name).drop i
  | none => lowerStr name

/-- The server-side `fileFilter`: accept iff the MIME type or the extension
is allow-listed. -/
def serverFileFilter (mime : String) (name : List Char) : Bool :=
  allowedTypes.contains mime || allowedExtensions.contains (fileExtensionOf name)

/-- The client-side type check in `handleFileUpload`: reject iff the MIME
type is not allow-listed **and** the extension is not allow-listed. -/
def clientTypeAccepts (mime : String) (name : List Char) : Bool :=
  !(!allowedTypes.contains mime && !allowedExtensions.contains (fileExtensionOf name))

/-- `const maxLength = 12000`. -/
def maxLength : Nat := 12000

/-- The appended truncation marker. -/
def truncMarker : String := "\n\n[Content truncated due to length...]"

/-- `if (content.length > maxLength) content = content.substring(0, maxLength) + marker`. -/
def truncateContent (content : List Char) : List Char :=
  if content.length > maxLength then content.take maxLength ++ truncMarker.data
  else content

/-- An OpenAI API failure as classified by the handler: the fields it
inspects are `status` and `code`. -/
structure ApiError where
  status : Option Nat
  code : Option String
  msg : String
deriving DecidableEq, Repr

/-- The fixed ordered model list. -/
def modelList : List String :=
  ["gpt-4.1-nano-2025-04-14", "gpt-4o-mini", "gpt-3.5-turbo", "gpt-4o"]

/-- The classifier: a failure lets the loop continue iff
`status === 403 || code === 'model_not_found'` (the handler aborts when
`status !== 403 && code !== 'model_not_found'`). -/
def isAccessError (e : ApiError) : Bool :=
  e.status == some 403 || e.code == some "model_not_found"

/-- The model fallback loop: try each model in order; stop at the first
success; abort on a non-access failure; remember `lastError` and throw it
(or a generic error) if every model failed. -/
def tryModels (attempt : String → Except ApiError String) :
    List String → Option ApiError → Except ApiError String
  | [], last => .error (last.getD ⟨none, none, "All models failed"⟩)
  | m :: rest, _ =>
      match attempt m with
      | .ok c => .ok c
      | .error e =>
          if !isAccessError e then .error e
          else tryModels attempt rest (some e)

/-- The generation call over the fixed model list. -/
def generationCall (attempt : String → Except ApiError String) :
    Except ApiError String :=
  tryModels attempt modelList none

/-! ## Theorems -/

set_option maxRecDepth 16000

/-- **C7.** On the input
`"Question: What is X?\nAnswer: X is Y.\n\nQuestion: What is Z?\nAnswer: Z is W."`
the flashcard pipeline (cleanup then extraction) yields exactly two
flashcards, in input order, with question and answer text trimmed of labels
and surrounding whitespace. -/
theorem flashcards_two_card_example :
    flashcardsOf
        "Question: What is X?\nAnswer: X is Y.\n\nQuestion: What is Z?\nAnswer: Z is W.".data =
      [⟨"What is X?".data, "X is Y.".data⟩, ⟨"What is Z?".data, "Z is W.".data⟩] := by
  decide

/-- **C8.** On the input `"I. Intro\nA. Background\n1. Point one\n2. Point two\nII. Body"`
the outline parser yields exactly two sections; the first has exactly one
subtopic containing exactly two points, and the second has zero subtopics. -/
theorem parseOutline_example :
    parseOutline "I. Intro\nA. Background\n1. Point one\n2. Point two\nII. Body".data =
      [⟨"Intro".data, [⟨"Background".data, ["Point one".data, "Point two".data]⟩]⟩,
       ⟨"Body".data, []⟩] := by
  decide

/-- **C9.** On the input `"Some intro text.\n- First point\n- Second point continues\n  here."`
the key-points extractor returns intro `"Some intro text."` and exactly two
bullets, the second including the continuation line joined with a single
space. -/
theorem extractKeyPoints_example :
    extractKeyPoints
        "Some intro text.\n- First point\n- Second point continues\n  here.".data =
      ⟨"Some intro text.".data,
       ["First point".data, "Second point continues here.".data]⟩ := by
  decide

/-- **C6.** Extracted text longer than 12,000 characters is submitted as
exactly its first 12,000 characters followed by the truncation marker;
text of length at most 12,000 passes through unchanged. -/
theorem truncateContent_spec (content : List Char) :
    (content.length > maxLength →
      truncateContent content = content.take maxLength ++ truncMarker.data) ∧
    (content.length ≤ maxLength → truncateContent content = content) := by
  constructor
  · intro h
    simp only [truncateContent, if_pos h]
  · intro h
    simp only [truncateContent, if_neg (by omega : ¬ content.length > maxLength)]

/-- Witness for C6 at a 12,001-character input and at a short input. -/
theorem truncateContent_spec_witness :
    truncateContent (List.replicate 12001 'a') =
      List.replicate 12000 'a' ++ truncMarker.data ∧
    truncateContent "abc".data = "abc".data := by
  constructor
  · have h := (truncateContent_spec (List.replicate 12001 'a')).1
      (by simp only [List.length_replicate, maxLength]; omega)
    rw [h, List.take_replicate]
    have hm : min maxLength 12001 = 12000 := by
      simp only [maxLength]; omega
    rw [hm]
  · exact (truncateContent_spec "abc".data).2 (by decide)

/-- **C10.** Both the server-side filter and the client-side upload check
accept a file iff its MIME type is allow-listed or its extension is
allow-listed; in particular a disallowed MIME type is still accepted whenever
the extension is `.pdf`, `.png`, `.md` or `.txt`. -/
theorem fileFilter_spec (mime : String) (name : List Char) :
    (serverFileFilter mime name = true ↔
      mime ∈ allowedTypes ∨ fileExtensionOf name ∈ allowedExtensions) ∧
    clientTypeAccepts mime name = serverFileFilter mime name ∧
    (fileExtensionOf name ∈ allowedExtensions →
      serverFileFilter mime name = true ∧ clientTypeAccepts mime name = true) := by
  have hiff : serverFileFilter mime name = true ↔
      mime ∈ allowedTypes ∨ fileExtensionOf name ∈ allowedExtensions := by
    simp [serverFileFilter, List.contains_iff_exists_mem_beq]
  have hcs : clientTypeAccepts mime name = serverFileFilter mime name := by
    simp [serverFileFilter, clientTypeAccepts]
  refine ⟨hiff, hcs, fun h => ?_⟩
  have hs : serverFileFilter mime name = true := hiff.mpr (Or.inr h)
  exact ⟨hs, by rw [hcs, hs]⟩

/-- Witness for C10: a file with a disallowed MIME type but extension
`.pdf` (after lowercasing) is accepted by both checks. -/
theorem fileFilter_spec_witness :
    serverFileFilter "application/x-msdownload" "Report.PDF".data = true ∧
    clientTypeAccepts "application/x-msdownload" "Report.PDF".data = true :=
  (fileFilter_spec "application/x-msdownload" "Report.PDF".data).2.2 (by decide)

/-- The fallback loop on any model list: if every model before index `i`
fails with an access error, then the outcome at index `i` decides the loop:
a success is returned as-is, and a non-access failure is propagated. -/
theorem tryModels_spec (attempt : String → Except ApiError String) :
    ∀ (ms : List String) (last : Option ApiError) (i : Nat), i < ms.length →
      (∀ j, j < i → ∃ e, attempt (ms.getD j "") = .error e ∧ isAccessError e = true) →
      (∀ v, attempt (ms.getD i "") = .ok v → tryModels attempt ms last = .ok v) ∧
      (∀ e, attempt (ms.getD i "") = .error e → isAccessError e = false →
        tryModels attempt ms last = .error e) := by
  intro ms
  induction ms with
  | nil => intro last i hi _; simp at hi
  | cons m rest ih =>
      intro last i hi hprev
      match i with
      | 0 =>
          constructor
          · intro v hv
            simp only [List.getD_cons_zero] at hv
            simp [tryModels, hv]
          · intro e he hacc
            simp only [List.getD_cons_zero] at he
            simp [tryModels, he, hacc]
      | i' + 1 =>
          obtain ⟨e0, he0, hacc0⟩ := hprev 0 (Nat.succ_pos i')
          simp only [List.getD_cons_zero] at he0
          have hstep : tryModels attempt (m :: rest) last =
              tryModels attempt rest (some e0) := by
            simp [tryModels, he0, hacc0]
          have hrest := ih (some e0) i' (by simpa using hi)
            (fun j hj => by simpa using hprev (j + 1) (by omega))
          constructor
          · intro v hv
            rw [hstep]
            exact hrest.1 v (by simpa using hv)
          · intro e he hacc
            rw [hstep]
            exact hrest.2 e (by simpa using he) hacc

/-- **C5.** The generation call iterates the fixed ordered model list
sequentially and stops at the first success; a failing attempt continues to
the next model iff it is an access error (HTTP 403 or code
`model_not_found`), and any other failure aborts the loop and propagates. -/
theorem generationCall_fallback_spec (attempt : String → Except ApiError String)
    (i : Nat) (hi : i < modelList.length)
    (hprev : ∀ j, j < i →
      ∃ e, attempt (modelList.getD j "") = .error e ∧ isAccessError e = true) :
    (∀ v, attempt (modelList.getD i "") = .ok v →
      generationCall attempt = .ok v) ∧
    (∀ e, attempt (modelList.getD i "") = .error e → isAccessError e = false →
      generationCall attempt = .error e) :=
  tryModels_spec attempt modelList none i hi hprev

/-! ### Inertness lemmas for the normalizer -/

/-- Unfolding `trimRight` over a cons cell. -/
theorem trimRight_cons (c : Char) (s : List Char) :
    trimRight (c :: s) =
      if (trimRight s = [] && wsChar c) = true then [] else c :: trimRight s := rfl

/-- `trimRight` is idempotent. -/
theorem trimRight_idem (s : List Char) :
    trimRight (trimRight s) = trimRight s := by
  induction s with
  | nil => rfl
  | cons c t ih =>
      rw [trimRight_cons]
      by_cases h : (trimRight t = [] && wsChar c) = true
      · rw [if_pos h]; rfl
      · rw [if_neg h, trimRight_cons, ih, if_neg h]

/-- `trimRight` only removes a suffix: a cons output exposes the head of the
input, together with the trim of its tail. -/
theorem trimRight_cons_inv {s : List Char} {x : Char} {r : List Char}
    (h : trimRight s = x :: r) : ∃ t, s = x :: t ∧ trimRight t = r := by
  match s with
  | [] => simp [trimRight] at h
  | c :: t =>
      rw [trimRight_cons] at h
      by_cases hc : (trimRight t = [] && wsChar c) = true
      · rw [if_pos hc] at h; simp at h
      · rw [if_neg hc] at h
        injection h with h1 h2
        subst h1
        exact ⟨t, rfl, h2⟩

/-- A triple of newlines in the tail is a triple in the whole list. -/
theorem hasNNN_cons_of {l : List Char} (c : Char) (h : hasNNN l = true) :
    hasNNN (c :: l) = true := by
  match l with
  | [] => simp [hasNNN] at h
  | [x] => simp [hasNNN] at h
  | x :: y :: t =>
      simp only [hasNNN, Bool.or_eq_true] at h ⊢
      exact Or.inr h

/-- If the whole list has no newline triple, neither has its tail. -/
theorem hasNNN_tail {l : List Char} {c : Char} (h : hasNNN (c :: l) = false) :
    hasNNN l = false := by
  by_contra hne
  rw [hasNNN_cons_of c (by revert hne; cases hasNNN l <;> simp)] at h
  exact absurd h (by simp)

/-- `dropWhile` preserves newline-triple-freeness. -/
theorem hasNNN_dropWhile {p : Char → Bool} {s : List Char}
    (h : hasNNN s = false) : hasNNN (s.dropWhile p) = false := by
  induction s with
  | nil => simpa using h
  | cons c t ih =>
      rw [List.dropWhile_cons]
      by_cases hp : p c = true
      · rw [if_pos hp]; exact ih (hasNNN_tail h)
      · rw [if_neg hp]; exact h

/-- `trimRight` preserves newline-triple-freeness. -/
theorem hasNNN_trimRight {s : List Char} (h : hasNNN s = false) :
    hasNNN (trimRight s) = false := by
  induction s with
  | nil => simpa using h
  | cons c t ih =>
      rw [trimRight_cons]
      by_cases hc : (trimRight t = [] && wsChar c) = true
      · rw [if_pos hc]; rfl
      · rw [if_neg hc]
        have iht := ih (hasNNN_tail h)
        match htr : trimRight t with
        | [] => simp [hasNNN]
        | [x] => simp [hasNNN]
        | x :: y :: r =>
            rw [htr] at iht
            simp only [hasNNN, iht, Bool.or_false]
            by_contra hcon
            simp only [Bool.not_eq_false, Bool.and_eq_true,
              decide_eq_true_eq] at hcon
            obtain ⟨⟨rfl, rfl⟩, rfl⟩ := hcon
            obtain ⟨t1, rfl, h1⟩ := trimRight_cons_inv htr
            obtain ⟨t2, rfl, _⟩ := trimRight_cons_inv h1
            simp [hasNNN] at h

/-- On a newline-triple-free list the collapse step is the identity, for all
three reachable values of the kept-newline counter. -/
theorem collapseGo_eq_self (s : List Char) :
    (hasNNN s = false → collapseGo 0 s = s) ∧
    (hasNNN ('\n' :: s) = false → collapseGo 1 s = s) ∧
    (hasNNN ('\n' :: '\n' :: s) = false → collapseGo 2 s = s) := by
  induction s with
  | nil => exact ⟨fun _ => rfl, fun _ => rfl, fun _ => rfl⟩
  | cons c t ih =>
      refine ⟨?_, ?_, ?_⟩
      · intro h
        by_cases hc : c = '\n'
        · subst hc
          simp only [collapseGo, if_pos rfl]
          norm_num
          exact ih.2.1 h
        · simp only [collapseGo, if_neg hc]
          rw [ih.1 (hasNNN_tail h)]
      · intro h
        by_cases hc : c = '\n'
        · subst hc
          simp only [collapseGo, if_pos rfl]
          norm_num
          exact ih.2.2 h
        · simp only [collapseGo, if_neg hc]
          rw [ih.1 (hasNNN_tail (hasNNN_tail h))]
      · intro h
        by_cases hc : c = '\n'
        · subst hc
          simp [hasNNN] at h
        · simp only [collapseGo, if_neg hc]
          rw [ih.1 (hasNNN_tail (hasNNN_tail (hasNNN_tail h)))]

/-- The collapse step is the identity on newline-triple-free input. -/
theorem collapseNL_eq_self {s : List Char} (h : hasNNN s = false) :
    collapseNL s = s := (collapseGo_eq_self s).1 h

/-- The head of a `dropWhile` result fails the predicate. -/
theorem dropWhile_head_false {p : Char → Bool} {s : List Char} {x : Char}
    {r : List Char} (h : s.dropWhile p = x :: r) : p x = false := by
  induction s with
  | nil => simp at h
  | cons c t ih =>
      rw [List.dropWhile_cons] at h
      by_cases hp : p c = true
      · rw [if_pos hp] at h; exact ih h
      · rw [if_neg hp] at h
        injection h with h1 _
        subst h1
        simpa using hp

/-- `trimStr` is idempotent. -/
theorem trimStr_idem (s : List Char) : trimStr (trimStr s) = trimStr s := by
  unfold trimStr
  have hleft : trimLeft (trimRight (trimLeft s)) = trimRight (trimLeft s) := by
    match htr : trimRight (trimLeft s) with
    | [] => rfl
    | x :: r =>
        obtain ⟨t, ht, _⟩ := trimRight_cons_inv htr
        have hx : wsChar x = false := dropWhile_head_false (p := wsChar) ht
        unfold trimLeft
        rw [List.dropWhile_cons, if_neg (by simp [hx])]
  rw [hleft, trimRight_idem]

/-- An option with `isSome = false` is `none`. -/
theorem eq_none_of_isSome_false {α : Type} {o : Option α}
    (h : o.isSome = false) : o = none := by
  cases o <;> simp_all

/-- With no preamble pattern matching, the preamble pass is the identity. -/
theorem stripPreambles_eq_self {s : List Char}
    (h : preambleMatches s = false) : stripPreambles s = s := by
  simp only [preambleMatches, preambleMatchers, List.any_cons, List.any_nil,
    Bool.or_eq_false_iff] at h
  obtain ⟨h1, h2, h3, h4, h5, h6, h7, h8, -⟩ := h
  simp only [stripPreambles, preambleMatchers, List.foldl_cons, List.foldl_nil,
    stripPre, eq_none_of_isSome_false h1, eq_none_of_isSome_false h2,
    eq_none_of_isSome_false h3, eq_none_of_isSome_false h4,
    eq_none_of_isSome_false h5, eq_none_of_isSome_false h6,
    eq_none_of_isSome_false h7, eq_none_of_isSome_false h8]

/-- With the marker step inert, the marker cut is the identity. -/
theorem markerCut_eq_self {s : List Char} {t : StudyGuideType}
    (h : markerInert s t = true) : markerCut s t = s := by
  unfold markerInert at h
  unfold markerCut
  match hm : markerIdx s t with
  | none => rfl
  | some i =>
      rw [hm] at h
      simp only [decide_eq_true_eq] at h
      subst h
      simp

/-- With no trailing phrase present, the trailing strip is the identity. -/
theorem stripTrailing_eq_self {s : List Char} (h : findTrailP s = none) :
    stripTrailing s = s := by
  unfold stripTrailing
  rw [h]

/-- The key inertness fact: when none of the normalizer's steps can act on
`s`, `cleanContent` returns the trimmed input unchanged. -/
theorem cleanContent_inert_eq_trim (s : List Char) (t : StudyGuideType)
    (h1 : preambleMatches s = false) (h2 : markerInert s t = true)
    (h3 : findTrailP s = none) (h4 : hasNNN s = false) :
    cleanContent s t = trimStr s := by
  by_cases hs : s = []
  · subst hs; rfl
  · unfold cleanContent
    rw [if_neg hs, stripPreambles_eq_self h1]
    dsimp only
    rw [markerCut_eq_self h2, stripTrailing_eq_self h3]
    show trimStr (collapseNL (trimStr s)) = trimStr s
    have hns : hasNNN (trimStr s) = false := by
      unfold trimStr trimLeft
      exact hasNNN_trimRight (hasNNN_dropWhile h4)
    rw [collapseNL_eq_self hns, trimStr_idem]

/-- The normalizer's output is already trimmed. -/
theorem cleanContent_trimmed (s : List Char) (t : StudyGuideType) :
    trimStr (cleanContent s t) = cleanContent s t := by
  unfold cleanContent
  by_cases hs : s = []
  · rw [if_pos hs]; rfl
  · rw [if_neg hs]
    exact trimStr_idem _

/-- **C4.** The normalizer is total (`cleanContent` is a total function by
construction, defined for every input and kind); and on any input on which no
preamble pattern matches, the marker search produces no cut after position 0,
no trailing-remark phrase occurs, and no run of 3 or more newlines exists, it
returns the trimmed input unchanged. -/
theorem cleanContent_total_inert_id (s : List Char) (t : StudyGuideType)
    (h1 : preambleMatches s = false) (h2 : markerInert s t = true)
    (h3 : findTrailP s = none) (h4 : hasNNN s = false) :
    cleanContent s t = trimStr s :=
  cleanContent_inert_eq_trim s t h1 h2 h3 h4

/-- Witness for C4 at the pattern-free input `"plain text"`. -/
theorem cleanContent_total_inert_id_witness :
    cleanContent "plain text".data StudyGuideType.summary =
      trimStr "plain text".data :=
  cleanContent_total_inert_id "plain text".data StudyGuideType.summary
    (by decide) (by decide) (by decide) (by decide)

/-- **C1 counterexample.** The normalizer is not idempotent: on
`"Here is A\nHere is B\nbody"` (kind `summary`) the first pass strips only
the first `Here is` line (each preamble pattern is applied once), and a
second pass strips the second one. -/
theorem cleanContent_not_idempotent :
    cleanContent
        (cleanContent "Here is A\nHere is B\nbody".data StudyGuideType.summary)
        StudyGuideType.summary ≠
      cleanContent "Here is A\nHere is B\nbody".data StudyGuideType.summary := by
  decide

/-- **C1 (amended).** `normalize(normalize(x,t),t) = normalize(x,t)` holds
whenever the cleaning steps are all inert on the output `normalize(x,t)`:
no preamble pattern matches it, the marker search yields no cut after
position 0, no trailing-remark phrase occurs in it, and it contains no run of
3 or more newlines.  In general idempotence fails (see the counterexample:
stacked preamble lines are stripped one per pass). -/
theorem cleanContent_idempotent_of_inert (x : List Char) (t : StudyGuideType)
    (h1 : preambleMatches (cleanContent x t) = false)
    (h2 : markerInert (cleanContent x t) t = true)
    (h3 : findTrailP (cleanContent x t) = none)
    (h4 : hasNNN (cleanContent x t) = false) :
    cleanContent (cleanContent x t) t = cleanContent x t := by
  rw [cleanContent_inert_eq_trim _ t h1 h2 h3 h4, cleanContent_trimmed]

/-- Witness for C1 (amended) at `"plain text"` (kind `points`). -/
theorem cleanContent_idempotent_of_inert_witness :
    cleanContent (cleanContent "plain text".data StudyGuideType.points)
        StudyGuideType.points =
      cleanContent "plain text".data StudyGuideType.points :=
  cleanContent_idempotent_of_inert "plain text".data StudyGuideType.points
    (by decide) (by decide) (by decide) (by decide)

/-- **C2 counterexample.** On the (already clean) input
`"Question: What is X?Answer: Y"` the three pattern families find no
candidate, and the blank-line fallback emits a flashcard whose answer is the
single character `"Y"`: the claimed `answer.length > 1` guard does not hold
on the fallback emission path. -/
theorem extractFlashcards_fallback_short_answer :
    cleanContent "Question: What is X?Answer: Y".data StudyGuideType.flashcards =
      "Question: What is X?Answer: Y".data ∧
    extractFlashcards "Question: What is X?Answer: Y".data =
      [⟨"What is X?".data, "Y".data⟩] := by
  decide

/-- **C2 (amended).** Every flashcard emitted by the three pattern families
has a non-empty question of length > 2 and a non-empty answer of length > 1;
flashcards emitted on the blank-line fallback path are only guaranteed a
non-empty (trimmed) question and answer — the length thresholds are not
enforced there. -/
theorem extractFlashcards_guards (s : List Char) :
    (∀ fc ∈ familyCards s, fc.question ≠ [] ∧ 2 < fc.question.length ∧
      fc.answer ≠ [] ∧ 1 < fc.answer.length) ∧
    (∀ fc ∈ extractFlashcards s, fc.question ≠ [] ∧ fc.answer ≠ []) := by
  have hfam : ∀ fc ∈ familyCards s, fc.question ≠ [] ∧ 2 < fc.question.length ∧
      fc.answer ≠ [] ∧ 1 < fc.answer.length := by
    intro fc hfc
    have h := List.of_mem_filter hfc
    simp only [acceptCard, Bool.and_eq_true, Bool.not_eq_true',
      List.isEmpty_eq_false, decide_eq_true_eq] at h
    exact ⟨h.1.1.1, h.1.2, h.1.1.2, h.2⟩
  refine ⟨hfam, ?_⟩
  intro fc hfc
  by_cases hemp : familyCards s = []
  · rw [extractFlashcards, if_pos hemp] at hfc
    obtain ⟨sec, _, heq⟩ := List.mem_filterMap.mp hfc
    unfold fallbackOfBlock at heq
    split at heq
    · dsimp only at heq
      split at heq
      · obtain rfl := Option.some_inj.mp heq
        rename_i hcond
        simpa using hcond
      · simp at heq
    · simp at heq
  · rw [extractFlashcards, if_neg hemp] at hfc
    obtain ⟨h1, _, h3, _⟩ := hfam fc hfc
    exact ⟨h1, h3⟩

/-- Witness for C2 (amended): on `"Q: Hey A: Yo"` the second family emits
`("Hey", "Yo")`, which satisfies all four guard conditions. -/
theorem extractFlashcards_guards_witness :
    "Hey".data ≠ [] ∧ 2 < ("Hey".data).length ∧
    "Yo".data ≠ [] ∧ 1 < ("Yo".data).length :=
  (extractFlashcards_guards "Q: Hey A: Yo".data).1
    ⟨"Hey".data, "Yo".data⟩ (by decide)

/-- A line accepted by the letter pattern starts with a capital letter, so
it cannot be a markdown heading. -/
theorem headingTest_false_of_letter {l r : List Char}
    (h : letterExec l = some r) : headingTest l = false := by
  match l with
  | [] => simp [letterExec] at h
  | c :: rest =>
      by_cases hc : ('A' ≤ c && c ≤ 'Z') = true
      · have : c ≠ '#' := by
          intro hq
          subst hq
          simp at hc
        simp [headingTest, this]
      · simp [letterExec, hc] at h

/-- **C3 counterexample.** The trimmed line `"C. Background"` matches the
single-capital-letter-dot prefix, yet the parser turns it into a *Section*
(titled `"Background"`, with zero subtopics), because the roman-numeral
branch (`C` is a roman numeral) fires first. -/
theorem parseOutline_letter_starts_section :
    (letterExec "C. Background".data).isSome = true ∧
    parseOutline "C. Background".data = [⟨"Background".data, []⟩] := by
  decide

/-- **C3 (amended).** A non-empty trimmed line matching the
single-capital-letter(-optional-dot) prefix and *not* matching the
roman-numeral-dot pattern starts a new Subtopic under the current section,
creating a section first if none is open (titled with the marker-stripped
line text); the subtopic title is the marker-stripped line, trimmed; no
section is pushed to the output, and `hasSub` becomes true. -/
theorem outlineStep_letter_subtopic (st : OutlineState) (line rest : List Char)
    (hrom : romanDotMatch line = none) (hlet : letterExec line = some rest) :
    outlineStep st line =
      { sections := st.sections
        current := some { title := (st.current.getD ⟨rest, []⟩).title
                          subtopics :=
                            (st.current.getD ⟨rest, []⟩).subtopics ++
                              [⟨trimStr rest, []⟩] }
        hasSub := true } := by
  have hh := headingTest_false_of_letter hlet
  simp [outlineStep, hrom, hh, hlet]

/-- Witness for C3 (amended): `"A. Background"` from the empty state opens a
section titled `"Background"` holding one fresh subtopic `"Background"`. -/
theorem outlineStep_letter_subtopic_witness :
    outlineStep ⟨[], none, false⟩ "A. Background".data =
      { sections := []
        current := some { title := "Background".data
                          subtopics := [⟨"Background".data, []⟩] }
        hasSub := true } :=
  outlineStep_letter_subtopic ⟨[], none, false⟩ "A. Background".data
    "Background".data (by decide) (by decide)

/-- Witness for C5: the first model fails with a 403 access error, the
second succeeds, and the loop returns the second model's completion. -/
theorem generationCall_fallback_spec_witness :
    generationCall (fun m =>
      if m = "gpt-4.1-nano-2025-04-14" then
        Except.error ⟨some 403, none, "no access"⟩
      else Except.ok "done") = Except.ok "done" := by
  have h := (generationCall_fallback_spec
    (fun m =>
      if m = "gpt-4.1-nano-2025-04-14" then
        Except.error ⟨some 403, none, "no access"⟩
      else Except.ok "done") 1 (by decide)
    (fun j hj => by
      match j, hj with
      | 0, _ => exact ⟨⟨some 403, none, "no access"⟩, rfl, by decide⟩)).1
  exact h "done" rfl

end StudyGuide
